import Mathlib

/-!
# Verification of the pattern-driven masking engine of `streamer-mode-vscode`

Shallow embedding of the masking core of `src/extension.ts`:

* `maskSpanFromMatch` (span resolution from a regex match, lines 413-437),
* the scanning loop of `refreshDecorations` (lines 210-240),
* `redactText` / `replaceGroupWith` (lines 273-287, 440-452),
* the temporary-reveal registry: `temporarilyReveal` (lines 454-474,
  both the insertion and the `setTimeout` callback), `cleanupExpiredReveals`
  (lines 476-483) and `isTemporarilyRevealed` (lines 485-496).

Texts are JavaScript strings indexed by code units; we model them as
`List Char` with `Nat` offsets.  The ECMAScript regex engine is not part of
the repository: a compiled pattern is modelled as an abstract function from a
text to the finite list of match results the `while ((m = re.exec(text)))`
loop would produce (and, for the termination claim, as a step function with
the exact `lastIndex` update ECMAScript performs).  `new RegExp` throwing a
`SyntaxError` (caught by the callers) is modelled by the engine returning
`none` for that source string.
-/

set_option autoImplicit false

namespace StreamerMode

/-- A JavaScript string, as a list of code units. -/
abbrev Str := List Char

/-- The `group` field of a pattern definition: `string | number` in TS. -/
inductive GroupSel where
  | num (n : Nat)
  | name (s : String)
  deriving DecidableEq, Repr

/-- A pattern definition: `{ name: string; regex: string; group?: string | number }`. -/
structure Pattern where
  name : String
  regex : String
  group : Option GroupSel
  deriving DecidableEq, Repr

/-- The `d`-flag match-index metadata of a match (`m.indices`):
per-position tuples and, when the pattern has named groups, a map of
per-name tuples.  A tuple is `none` when the group did not participate. -/
structure Indices where
  nums : List (Option (Nat × Nat))
  groups : Option (List (String × Option (Nat × Nat)))
  deriving DecidableEq, Repr

/-- One `RegExpExecArray`: the match offset `m.index`, the positional
captures `m[0], m[1], ...` (`none` for a non-participating group), the named
captures `m.groups`, and the optional `m.indices` metadata. -/
structure MatchResult where
  index : Nat
  captures : List (Option Str)
  groups : Option (List (String × Option Str))
  indices : Option Indices
  deriving DecidableEq, Repr

/-- JavaScript property lookup on an object literal modelled as an
association list: the first binding of the key, or `none`. -/
def alistGet {α : Type} : List (String × α) → String → Option α
  | [], _ => none
  | (k, v) :: t, s => if k = s then some v else alistGet t s

/-- `m[n]`: positional capture access; out-of-range reads give `undefined`. -/
def getCapture (m : MatchResult) (n : Nat) : Option Str :=
  (m.captures.get? n).join

/-- `m[0]`, the full matched text (always present on a real match). -/
def m0 (m : MatchResult) : Str :=
  (getCapture m 0).getD []

/-- `Number(group) || 0` for the string case of the fallback in
`maskSpanFromMatch`: a decimal numeral coerces to its value, any other name
coerces to `NaN` which `|| 0` turns into `0`. -/
def jsNum (s : String) : Nat :=
  s.toNat?.getD 0

/-- `String.prototype.indexOf`, successful case: the least position at which
`sub` occurs in `s` (`none` models the `-1` result). -/
def jsIndexOfAux (sub : Str) : Str → Nat → Option Nat
  | [], k => if sub.isPrefixOf [] then some k else none
  | c :: t, k => if sub.isPrefixOf (c :: t) then some k else jsIndexOfAux sub t (k + 1)

/-- `s.indexOf(sub)` with `none` for `-1`. -/
def jsIndexOf (s sub : Str) : Option Nat :=
  jsIndexOfAux sub s 0

/-- The metadata branch of `maskSpanFromMatch` (lines 420-428): read the
selected group's tuple from `anyM.indices` when available; `none` when
`indices` is absent, the tuple is absent, or a named lookup misses. -/
def metaLookup (m : MatchResult) (g : GroupSel) : Option (Nat × Nat) :=
  match m.indices with
  | none => none
  | some ind =>
    match g with
    | GroupSel.num n =>
      match ind.nums.get? n with
      | some (some tup) => some tup
      | _ => none
    | GroupSel.name s =>
      match ind.groups with
      | none => none
      | some gl =>
        match alistGet gl s with
        | some (some tup) => some tup
        | _ => none

/-- The fallback text of `maskSpanFromMatch` (lines 430-431):
`idx = typeof group === 'number' ? group : (m.groups ? m.groups[group] : undefined)`
then `gText = typeof idx === 'string' ? idx : m[Number(group) || 0]`.
For a numeric selector this is `m[n]`; for a named selector it is the named
capture when it is a string, and otherwise `m[Number(name) || 0]`. -/
def gTextFallback (m : MatchResult) (g : GroupSel) : Option Str :=
  match g with
  | GroupSel.num n => getCapture m n
  | GroupSel.name s =>
    match m.groups with
    | some gl =>
      match alistGet gl s with
      | some (some t) => some t
      | _ => getCapture m (jsNum s)
    | none => getCapture m (jsNum s)

/-- `maskSpanFromMatch` (lines 413-437): given a match and optional group
selector, the `[start, end]` pair to mask.  The TS return type is
`[number | null, number | null]`; branches in order: no selector gives the
full-match span; a successful metadata lookup gives the group tuple;
otherwise the captured text (`!gText` covering both `undefined` and the
empty string) is located by `m[0].indexOf(gText)` with the full-match span
as the final fallback. -/
def maskSpanFromMatch (m : MatchResult) (group : Option GroupSel) : Option Nat × Option Nat :=
  let baseIndex := m.index
  match group with
  | none => (some baseIndex, some (baseIndex + (m0 m).length))
  | some g =>
    match metaLookup m g with
    | some tup => (some tup.1, some tup.2)
    | none =>
      match gTextFallback m g with
      | none => (some baseIndex, some (baseIndex + (m0 m).length))
      | some t =>
        if t.isEmpty then (some baseIndex, some (baseIndex + (m0 m).length))
        else
          match jsIndexOf (m0 m) t with
          | none => (some baseIndex, some (baseIndex + (m0 m).length))
          | some rel => (some (baseIndex + rel), some (baseIndex + rel + t.length))

/-! ## The temporary-reveal registry -/

/-- One entry of `tempReveals`: `{ start, end, expires }` (the TS field
`end` is a Lean keyword, rendered `stop`). -/
structure RevealEntry where
  start : Nat
  stop : Nat
  expires : Nat
  deriving DecidableEq, Repr

/-- The global `tempReveals : Map<string, {start, end, expires}[]>`,
modelled as an insertion-ordered association list keyed by document URI. -/
abbrev RevealMap := List (String × List RevealEntry)

/-- `Map.prototype.get`. -/
def mapGet (m : RevealMap) (k : String) : Option (List RevealEntry) :=
  match m with
  | [] => none
  | (k', v) :: t => if k' = k then some v else mapGet t k

/-- `Map.prototype.set`: replace the binding of an existing key in place,
else append a new binding. -/
def mapSet (m : RevealMap) (k : String) (v : List RevealEntry) : RevealMap :=
  match m with
  | [] => [(k, v)]
  | (k', v') :: t => if k' = k then (k, v) :: t else (k', v') :: mapSet t k v

/-- The entries currently stored for a document (`tempReveals.get(key) ?? []`). -/
def entriesOf (reg : RevealMap) (key : String) : List RevealEntry :=
  (mapGet reg key).getD []

/-- The insertion half of `temporarilyReveal` (lines 454-461): append an
entry expiring at `now + Math.max(500, ms)` to the document's list. -/
def temporarilyReveal (reg : RevealMap) (key : String) (start stop ms now : Nat) : RevealMap :=
  let list := (mapGet reg key).getD []
  let expires := now + max 500 ms
  mapSet reg key (list ++ [{ start := start, stop := stop, expires := expires }])

/-- The `setTimeout` callback of `temporarilyReveal` (lines 465-473), fired
at some later time `now`: keep only the entries that are unexpired AND whose
range differs from the one this reveal was created for
(`x.expires > now && !(x.start === start && x.end === end)`). -/
def revealTimeoutCallback (reg : RevealMap) (key : String) (start stop now : Nat) : RevealMap :=
  match mapGet reg key with
  | none => reg
  | some arr =>
    mapSet reg key (arr.filter fun x =>
      decide (now < x.expires) && !(x.start == start && x.stop == stop))

/-- `cleanupExpiredReveals` (lines 476-483): drop the document's entries with
`expires <= now`, writing back only when something was dropped. -/
def cleanupExpiredReveals (reg : RevealMap) (key : String) (now : Nat) : RevealMap :=
  match mapGet reg key with
  | none => reg
  | some arr =>
    let next := arr.filter fun x => decide (now < x.expires)
    if next.length ≠ arr.length then mapSet reg key next else reg

/-- `isTemporarilyRevealed` (lines 485-496): `true` when some unexpired entry
of the document strictly overlaps `[start, stop)`
(`Math.max(r.start, start) < Math.min(r.end, end)`); expired entries are
skipped by the loop but NOT removed (the function only reads the map). -/
def isTemporarilyRevealed (reg : RevealMap) (key : String) (start stop now : Nat) : Bool :=
  match mapGet reg key with
  | none => false
  | some arr =>
    if arr.isEmpty then false
    else arr.any fun r =>
      decide (now < r.expires) && decide (max r.start start < min r.stop stop)

/-! ## The scanner and the redactor -/

/-- A mask span `{start, end, patternName}` over the document text,
half-open `[start, stop)` (the TS field `end` is a Lean keyword, rendered
`stop`). -/
structure MaskSpan where
  start : Nat
  stop : Nat
  patternName : String
  deriving DecidableEq, Repr

/-- A regex engine: `buildRegex` either throws (`none`, caught by the
callers' `try`/`catch`) or yields a compiled matcher; a compiled matcher
sends a text to the finite list of matches the repeated-`exec` loop yields
on it (see `execLoopFuel` for the loop itself). -/
abbrev Engine := String → Option (Str → List MatchResult)

/-- The match results a pattern contributes: none when its regex source does
not compile (the `catch` branch), else the matcher's results on the text. -/
def matchesFor (engine : Engine) (p : Pattern) (text : Str) : List MatchResult :=
  match engine p.regex with
  | none => []
  | some f => f text

/-- The per-pattern body of the scanning loop of `refreshDecorations`
(lines 210-240, keeping only the span computation; rendering options are a
collaborator concern): for each match, resolve the span, skip it when a
bound is null or `maskEnd <= maskStart`, skip it when temporarily revealed,
else record `{start, end, patternName}`. -/
def scanPattern (engine : Engine) (text : Str) (reg : RevealMap) (key : String)
    (now : Nat) (p : Pattern) : List MaskSpan :=
  (matchesFor engine p text).filterMap fun m =>
    match maskSpanFromMatch m p.group with
    | (some s, some e) =>
      if e ≤ s then none
      else if isTemporarilyRevealed reg key s e now then none
      else some { start := s, stop := e, patternName := p.name }
    | _ => none

/-- `scan(text, patterns, documentKey)`: the span-producing part of
`refreshDecorations` — sweep the document's expired reveals once
(line 208), then run every pattern in order. -/
def scan (engine : Engine) (text : Str) (reg : RevealMap) (key : String)
    (now : Nat) (ps : List Pattern) : List MaskSpan :=
  let r := cleanupExpiredReveals reg key now
  ps.flatMap (scanPattern engine text r key now)

/-- `replaceGroupWith` (lines 440-452) given the matches of its exec loop:
`out += text.slice(last, s) + replacement; last = e;`, skipping a match only
when a resolved bound is null, and finally `out += text.slice(last)`. -/
def replaceGroupWithAux (text : Str) (g : GroupSel) (repl : Str) :
    List MatchResult → Nat → Str
  | [], last => text.drop last
  | m :: ms, last =>
    match maskSpanFromMatch m (some g) with
    | (some s, some e) =>
      (text.drop last).take (s - last) ++ repl ++ replaceGroupWithAux text g repl ms e
    | _ => replaceGroupWithAux text g repl ms last

/-- `replaceGroupWith(text, re, group, replacement)` on the match list. -/
def replaceGroupWith (text : Str) (ms : List MatchResult) (g : GroupSel) (repl : Str) : Str :=
  replaceGroupWithAux text g repl ms 0

/-- `text.replace(re, () => replacement)` with a global regex (ECMAScript
`String.prototype.replace` semantics): every match's full span is replaced. -/
def replaceAllWithAux (text repl : Str) : List MatchResult → Nat → Str
  | [], last => text.drop last
  | m :: ms, last =>
    (text.drop last).take (m.index - last) ++ repl ++
      replaceAllWithAux text repl ms (m.index + (m0 m).length)

/-- `text.replace(re, () => replacement)` on the match list. -/
def replaceAllWith (text : Str) (ms : List MatchResult) (repl : Str) : Str :=
  replaceAllWithAux text repl ms 0

/-- The loop body of `redactText` (lines 274-285): a pattern whose regex
fails to compile is skipped by the `catch` (the text passes through
unchanged); a pattern with a `group` goes through `replaceGroupWith`, else
through `text.replace`. -/
def redactStep (engine : Engine) (t : Str) (p : Pattern) : Str :=
  match engine p.regex with
  | none => t
  | some f =>
    match p.group with
    | some g => replaceGroupWith t (f t) g ("«hidden»".toList)
    | none => replaceAllWith t (f t) ("«hidden»".toList)

/-- `redactText` (lines 273-287): fold the patterns over the text, each
pattern operating on the progressively-redacted output of the previous. -/
def redactText (engine : Engine) (text : Str) (ps : List Pattern) : Str :=
  ps.foldl (redactStep engine) text

/-! ## The exec loop, step by step

`refreshDecorations` and `replaceGroupWith` both run
`while ((m = re.exec(text)))` against a global regex.  ECMAScript `exec`
searches from `lastIndex` and, on success, sets `lastIndex` to the end of
the match — for a zero-length match that leaves `lastIndex` unchanged.  The
loop is modelled with explicit fuel: `none` means the fuel ran out before
`exec` returned `null`, `some ms` means the loop finished with matches `ms`. -/

/-- A stepping matcher: from a text and the current `lastIndex`, the next
match (`none` when `exec` returns `null`). -/
abbrev StepMatcher := Str → Nat → Option MatchResult

/-- The `while ((m = re.exec(text)))` loop with fuel. -/
def execLoopFuel (next : StepMatcher) (text : Str) : Nat → Nat → Option (List MatchResult)
  | 0, _ => none
  | fuel + 1, li =>
    match next text li with
    | none => some []
    | some m =>
      match execLoopFuel next text fuel (m.index + (m0 m).length) with
      | none => none
      | some ms => some (m :: ms)

/-- The compiled form of the pattern source `a*` (which `buildRegex` accepts:
no leading inline-flag group, flags `gd`): at any `lastIndex` within the
text, `exec` matches the maximal run of `a`s starting there — possibly the
empty string — and returns `null` once `lastIndex` exceeds the text length. -/
def starANext : StepMatcher := fun text li =>
  if li ≤ text.length then
    some { index := li
           captures := [some ((text.drop li).takeWhile fun c => c = 'a')]
           groups := none
           indices := none }
  else none

/-! ## Well-formedness of real matches

A real `RegExpExecArray` over `text` satisfies: the full match lies inside
the text, and every `d`-flag index tuple ends at or before `text.length`.
The scanner's bounds invariant is proved under this assumption. -/

/-- A single index tuple ends within the text. -/
def wfTup (len : Nat) : Option (Nat × Nat) → Bool
  | none => true
  | some tup => decide (tup.2 ≤ len)

/-- Well-formedness of a match result over `text`. -/
def WfMatch (text : Str) (m : MatchResult) : Bool :=
  decide (m.index + (m0 m).length ≤ text.length) &&
    (match m.indices with
     | none => true
     | some ind =>
       ind.nums.all (wfTup text.length) &&
         (match ind.groups with
          | none => true
          | some gl => gl.all fun p => wfTup text.length p.2))

/-! ## Registry lemmas -/

theorem mapGet_mapSet_self (m : RevealMap) (k : String) (v : List RevealEntry) :
    mapGet (mapSet m k v) k = some v := by
  induction m with
  | nil => simp [mapSet, mapGet]
  | cons hd t ih =>
    obtain ⟨k', v'⟩ := hd
    by_cases hk : k' = k
    · simp [mapSet, hk, mapGet]
    · simp [mapSet, hk, mapGet, ih]

theorem mapGet_mapSet_ne (m : RevealMap) (k k' : String) (v : List RevealEntry)
    (h : k' ≠ k) : mapGet (mapSet m k v) k' = mapGet m k' := by
  have h' : ¬k = k' := fun hh => h hh.symm
  induction m with
  | nil => simp [mapSet, mapGet, h']
  | cons hd t ih =>
    obtain ⟨k'', v''⟩ := hd
    by_cases hk : k'' = k
    · subst hk
      simp [mapSet, mapGet, h']
    · simp [mapSet, hk, mapGet, ih]

theorem filter_length_eq_imp {α : Type} (p : α → Bool) :
    ∀ l : List α, (l.filter p).length = l.length → l.filter p = l
  | [], _ => rfl
  | a :: t, h => by
    cases hp : p a with
    | true =>
      simp only [List.filter_cons, hp, if_true, List.length_cons] at h ⊢
      rw [filter_length_eq_imp p t (by omega)]
    | false =>
      exfalso
      simp only [List.filter_cons, hp, Bool.false_eq_true, if_false, List.length_cons] at h
      have := List.length_filter_le p t
      omega

theorem isTemporarilyRevealed_eq_any (reg : RevealMap) (key : String) (start stop now : Nat) :
    isTemporarilyRevealed reg key start stop now =
      (entriesOf reg key).any fun r =>
        decide (now < r.expires) && decide (max r.start start < min r.stop stop) := by
  unfold isTemporarilyRevealed entriesOf
  cases h : mapGet reg key with
  | none => simp
  | some arr => cases arr <;> simp

theorem entriesOf_cleanup (reg : RevealMap) (key : String) (now : Nat) :
    entriesOf (cleanupExpiredReveals reg key now) key =
      (entriesOf reg key).filter fun r => decide (now < r.expires) := by
  cases h : mapGet reg key with
  | none => simp [cleanupExpiredReveals, entriesOf, h]
  | some arr =>
    by_cases hl : (arr.filter fun x => decide (now < x.expires)).length = arr.length
    · have harr := filter_length_eq_imp _ arr hl
      simp [cleanupExpiredReveals, entriesOf, h, hl, harr]
    · simp [cleanupExpiredReveals, entriesOf, h, hl, mapGet_mapSet_self]

theorem entriesOf_temporarilyReveal (reg : RevealMap) (key : String) (s e ms now : Nat) :
    entriesOf (temporarilyReveal reg key s e ms now) key =
      entriesOf reg key ++ [{ start := s, stop := e, expires := now + max 500 ms }] := by
  unfold temporarilyReveal entriesOf
  simp [mapGet_mapSet_self]

theorem entriesOf_timeoutCallback (reg : RevealMap) (key : String) (s e now : Nat) :
    entriesOf (revealTimeoutCallback reg key s e now) key =
      (entriesOf reg key).filter fun x =>
        decide (now < x.expires) && !(x.start == s && x.stop == e) := by
  cases h : mapGet reg key with
  | none => simp [revealTimeoutCallback, entriesOf, h]
  | some arr => simp [revealTimeoutCallback, entriesOf, h, mapGet_mapSet_self]

theorem isTemporarilyRevealed_cleanup (reg : RevealMap) (key : String) (a b now : Nat) :
    isTemporarilyRevealed (cleanupExpiredReveals reg key now) key a b now =
      isTemporarilyRevealed reg key a b now := by
  rw [isTemporarilyRevealed_eq_any, isTemporarilyRevealed_eq_any, entriesOf_cleanup]
  induction entriesOf reg key with
  | nil => rfl
  | cons r t ih =>
    by_cases hr : now < r.expires
    · simp [List.filter_cons, hr, List.any_cons, ih]
    · simp [List.filter_cons, hr, List.any_cons, ih]

theorem isTemporarilyRevealed_add (reg : RevealMap) (key : String)
    (s e ms t0 a b now : Nat) :
    isTemporarilyRevealed (temporarilyReveal reg key s e ms t0) key a b now =
      (isTemporarilyRevealed reg key a b now ||
        (decide (now < t0 + max 500 ms) && decide (max s a < min e b))) := by
  rw [isTemporarilyRevealed_eq_any, isTemporarilyRevealed_eq_any,
    entriesOf_temporarilyReveal, List.any_append]
  simp

/-! ## Substring-search lemmas -/

theorem isPrefixOf_length_le : ∀ a b : Str, a.isPrefixOf b = true → a.length ≤ b.length
  | [], _, _ => Nat.zero_le _
  | _ :: _, [], h => by simp [List.isPrefixOf] at h
  | a :: as, b :: bs, h => by
    simp only [List.isPrefixOf, Bool.and_eq_true] at h
    have := isPrefixOf_length_le as bs h.2
    simp only [List.length_cons]
    omega

theorem jsIndexOfAux_bound (sub : Str) :
    ∀ (s : Str) (k r : Nat), jsIndexOfAux sub s k = some r →
      k ≤ r ∧ (r - k) + sub.length ≤ s.length
  | [], k, r, h => by
    unfold jsIndexOfAux at h
    by_cases hp : sub.isPrefixOf [] = true
    · rw [if_pos hp] at h
      have := isPrefixOf_length_le sub [] hp
      simp only [Option.some.injEq] at h
      omega
    · rw [if_neg hp] at h
      exact absurd h (by simp)
  | c :: t, k, r, h => by
    unfold jsIndexOfAux at h
    by_cases hp : sub.isPrefixOf (c :: t) = true
    · rw [if_pos hp] at h
      have := isPrefixOf_length_le sub (c :: t) hp
      simp only [Option.some.injEq] at h
      simp only [List.length_cons] at this ⊢
      omega
    · rw [if_neg hp] at h
      have := jsIndexOfAux_bound sub t (k + 1) r h
      simp only [List.length_cons]
      omega

theorem jsIndexOf_bound (s sub : Str) (r : Nat) (h : jsIndexOf s sub = some r) :
    r + sub.length ≤ s.length := by
  have := jsIndexOfAux_bound sub s 0 r h
  omega

/-! ## Span-resolution lemmas -/

theorem alistGet_mem {α : Type} : ∀ (l : List (String × α)) (s : String) (v : α),
    alistGet l s = some v → (s, v) ∈ l
  | [], _, _, h => by simp [alistGet] at h
  | (k, w) :: t, s, v, h => by
    by_cases hk : k = s
    · subst hk
      unfold alistGet at h
      rw [if_pos rfl] at h
      injection h with h
      subst h
      exact List.mem_cons_self _ _
    · unfold alistGet at h
      rw [if_neg hk] at h
      exact List.mem_cons_of_mem _ (alistGet_mem t s v h)

theorem metaLookup_bound (text : Str) (m : MatchResult) (g : GroupSel) (a b : Nat)
    (hwf : WfMatch text m = true) (h : metaLookup m g = some (a, b)) : b ≤ text.length := by
  unfold WfMatch at hwf
  unfold metaLookup at h
  cases hi : m.indices with
  | none => rw [hi] at h; exact Option.noConfusion h
  | some ind =>
    rw [hi] at h hwf
    simp only [Bool.and_eq_true, List.all_eq_true, decide_eq_true_eq] at hwf
    obtain ⟨-, hnums, hrest⟩ := hwf
    cases g with
    | num n =>
      dsimp only at h
      cases hg : ind.nums.get? n with
      | none => rw [hg] at h; exact Option.noConfusion h
      | some o =>
        cases o with
        | none => rw [hg] at h; exact Option.noConfusion h
        | some tup =>
          rw [hg] at h
          injection h with h
          subst h
          have hmem := List.get?_mem hg
          have := hnums _ hmem
          unfold wfTup at this
          simpa using this
    | name s =>
      dsimp only at h
      cases hgl : ind.groups with
      | none => rw [hgl] at h; exact Option.noConfusion h
      | some gl =>
        rw [hgl] at h
        dsimp only at h
        rw [hgl] at hrest
        simp only [List.all_eq_true] at hrest
        cases ha : alistGet gl s with
        | none => rw [ha] at h; exact Option.noConfusion h
        | some o =>
          cases o with
          | none => rw [ha] at h; exact Option.noConfusion h
          | some tup =>
            rw [ha] at h
            injection h with h
            subst h
            have hmem := alistGet_mem gl s (some (a, b)) ha
            have := hrest _ hmem
            unfold wfTup at this
            simpa using this

theorem maskSpan_le (text : Str) (m : MatchResult) (g : Option GroupSel) (s e : Nat)
    (hwf : WfMatch text m = true) (h : maskSpanFromMatch m g = (some s, some e)) :
    e ≤ text.length := by
  have hfull : m.index + (m0 m).length ≤ text.length := by
    unfold WfMatch at hwf
    simp only [Bool.and_eq_true, decide_eq_true_eq] at hwf
    exact hwf.1
  cases g with
  | none =>
    simp only [maskSpanFromMatch] at h
    simp only [Prod.mk.injEq, Option.some.injEq] at h
    omega
  | some g =>
    simp only [maskSpanFromMatch] at h
    cases hm : metaLookup m g with
    | some tup =>
      rw [hm] at h
      dsimp only at h
      simp only [Prod.mk.injEq, Option.some.injEq] at h
      have := metaLookup_bound text m g tup.1 tup.2 hwf (by rw [hm])
      omega
    | none =>
      rw [hm] at h
      dsimp only at h
      cases hg : gTextFallback m g with
      | none =>
        rw [hg] at h
        dsimp only at h
        simp only [Prod.mk.injEq, Option.some.injEq] at h
        omega
      | some t =>
        rw [hg] at h
        dsimp only at h
        by_cases ht : t.isEmpty
        · rw [if_pos ht] at h
          simp only [Prod.mk.injEq, Option.some.injEq] at h
          omega
        · rw [if_neg ht] at h
          cases hr : jsIndexOf (m0 m) t with
          | none =>
            rw [hr] at h
            dsimp only at h
            simp only [Prod.mk.injEq, Option.some.injEq] at h
            omega
          | some rel =>
            rw [hr] at h
            dsimp only at h
            simp only [Prod.mk.injEq, Option.some.injEq] at h
            have := jsIndexOf_bound (m0 m) t rel hr
            omega

/-! ## Scanner lemmas -/

theorem mem_scanPattern {engine : Engine} {text : Str} {reg : RevealMap} {key : String}
    {now : Nat} {p : Pattern} {sp : MaskSpan}
    (h : sp ∈ scanPattern engine text reg key now p) :
    ∃ m ∈ matchesFor engine p text, ∃ s e,
      maskSpanFromMatch m p.group = (some s, some e) ∧ s < e ∧
      isTemporarilyRevealed reg key s e now = false ∧
      sp = { start := s, stop := e, patternName := p.name } := by
  rw [scanPattern, List.mem_filterMap] at h
  obtain ⟨m, hm, hf⟩ := h
  refine ⟨m, hm, ?_⟩
  cases hspan : maskSpanFromMatch m p.group with
  | mk o1 o2 =>
    rw [hspan] at hf
    cases o1 with
    | none => exact Option.noConfusion hf
    | some s =>
      cases o2 with
      | none => exact Option.noConfusion hf
      | some e =>
        dsimp only at hf
        by_cases hle : e ≤ s
        · rw [if_pos hle] at hf
          exact Option.noConfusion hf
        · rw [if_neg hle] at hf
          cases hrev : isTemporarilyRevealed reg key s e now with
          | true =>
            rw [hrev] at hf
            simp only [if_true] at hf
            exact Option.noConfusion hf
          | false =>
            rw [hrev] at hf
            simp only [Bool.false_eq_true, if_false, Option.some.injEq] at hf
            exact ⟨s, e, rfl, by omega, hrev, hf.symm⟩

theorem scanPattern_congrReveal (engine : Engine) (text : Str) (r1 r2 : RevealMap)
    (key : String) (now : Nat) (p : Pattern)
    (h : ∀ a b, isTemporarilyRevealed r1 key a b now = isTemporarilyRevealed r2 key a b now) :
    scanPattern engine text r1 key now p = scanPattern engine text r2 key now p := by
  unfold scanPattern
  apply List.filterMap_congr
  intro m _
  cases hspan : maskSpanFromMatch m p.group with
  | mk o1 o2 =>
    cases o1 with
    | none => rfl
    | some s =>
      cases o2 with
      | none => rfl
      | some e => dsimp only; rw [h s e]

theorem scan_congrReveal (engine : Engine) (text : Str) (r1 r2 : RevealMap)
    (key : String) (now : Nat) (ps : List Pattern)
    (h : ∀ a b, isTemporarilyRevealed (cleanupExpiredReveals r1 key now) key a b now =
      isTemporarilyRevealed (cleanupExpiredReveals r2 key now) key a b now) :
    scan engine text r1 key now ps = scan engine text r2 key now ps := by
  unfold scan
  have : scanPattern engine text (cleanupExpiredReveals r1 key now) key now =
      scanPattern engine text (cleanupExpiredReveals r2 key now) key now := by
    funext p
    exact scanPattern_congrReveal _ _ _ _ _ _ _ h
  dsimp only
  rw [this]

/-! ## Fault-isolation lemmas -/

theorem scanPattern_invalid (engine : Engine) (text : Str) (r : RevealMap) (key : String)
    (now : Nat) (p : Pattern) (h : engine p.regex = none) :
    scanPattern engine text r key now p = [] := by
  unfold scanPattern matchesFor
  rw [h]
  rfl

theorem flatMap_scan_filter (engine : Engine) (text : Str) (r : RevealMap) (key : String)
    (now : Nat) : ∀ ps : List Pattern,
    ps.flatMap (scanPattern engine text r key now) =
      (ps.filter fun p => (engine p.regex).isSome).flatMap (scanPattern engine text r key now)
  | [] => rfl
  | p :: ps => by
    by_cases hp : (engine p.regex).isSome
    · simp only [List.flatMap_cons, List.filter_cons, hp, if_true,
        flatMap_scan_filter engine text r key now ps]
    · have hnone : engine p.regex = none := by
        cases he : engine p.regex
        · rfl
        · rw [he] at hp; simp at hp
      simp only [List.flatMap_cons, List.filter_cons, hp,
        scanPattern_invalid engine text r key now p hnone, List.nil_append,
        Bool.false_eq_true, if_false]
      exact flatMap_scan_filter engine text r key now ps

theorem redactStep_invalid (engine : Engine) (t : Str) (p : Pattern)
    (h : engine p.regex = none) : redactStep engine t p = t := by
  unfold redactStep
  rw [h]

theorem redactText_filter (engine : Engine) : ∀ (ps : List Pattern) (text : Str),
    redactText engine text ps =
      redactText engine text (ps.filter fun p => (engine p.regex).isSome)
  | [], _ => rfl
  | p :: ps, text => by
    by_cases hp : (engine p.regex).isSome
    · show redactText engine (redactStep engine text p) ps = _
      simp only [List.filter_cons, hp, if_true]
      exact redactText_filter engine ps (redactStep engine text p)
    · have hnone : engine p.regex = none := by
        cases he : engine p.regex
        · rfl
        · rw [he] at hp; simp at hp
      show redactText engine (redactStep engine text p) ps = _
      rw [redactStep_invalid engine text p hnone]
      simp only [List.filter_cons, hp, Bool.false_eq_true, if_false]
      exact redactText_filter engine ps text

/-! ## Concrete instances used by witnesses and counterexamples -/

/-- A match of the whole text `"ab"` with no capture groups and no metadata. -/
def mC9 : MatchResult :=
  { index := 0, captures := [some ("ab".toList)], groups := none, indices := none }

/-- An engine whose every pattern matches the whole input once. -/
def engineW : Engine := fun _ =>
  some fun t => [{ index := 0, captures := [some t], groups := none, indices := none }]

/-- A two-character document text. -/
def textW : Str := "ab".toList

/-- A groupless pattern definition. -/
def pW : Pattern := { name := "p", regex := "r", group := none }

/-- A single groupless pattern definition. -/
def psW : List Pattern := [pW]

/-- An engine on which the source string `"bad"` fails to compile and every
other source matches the whole input once. -/
def engineC2 : Engine := fun src =>
  if src = "bad" then none
  else some fun t => [{ index := 0, captures := [some t], groups := none, indices := none }]

/-- One failing and one valid pattern definition. -/
def psC2 : List Pattern :=
  [{ name := "b", regex := "bad", group := none },
   { name := "g", regex := "ok", group := none }]

/-- A registry holding entries for two distinct documents. -/
def regW : RevealMap :=
  [("a", [{ start := 0, stop := 1, expires := 10 }]),
   ("b", [{ start := 2, stop := 3, expires := 20 }])]

/-! ## Claim theorems -/

/-- C9: span resolution is total: for every match result and every group
selector (absent, numeric or named, captured or not), `maskSpanFromMatch`
returns two non-null numeric bounds, and when neither the index metadata nor
the fallback text resolves the group it returns the full-match span
`[matchStart, matchStart + fullMatchLength)`. -/
theorem maskSpanFromMatch_total (m : MatchResult) (g : Option GroupSel) :
    (∃ s e, maskSpanFromMatch m g = (some s, some e)) ∧
      (∀ g', g = some g' → metaLookup m g' = none → gTextFallback m g' = none →
        maskSpanFromMatch m g = (some m.index, some (m.index + (m0 m).length))) := by
  constructor
  · cases g with
    | none => exact ⟨_, _, rfl⟩
    | some g =>
      simp only [maskSpanFromMatch]
      cases hm : metaLookup m g with
      | some tup => exact ⟨tup.1, tup.2, rfl⟩
      | none =>
        cases hg : gTextFallback m g with
        | none => exact ⟨_, _, rfl⟩
        | some t =>
          dsimp only
          by_cases ht : t.isEmpty
          · rw [if_pos ht]
            exact ⟨_, _, rfl⟩
          · rw [if_neg ht]
            cases hr : jsIndexOf (m0 m) t with
            | none => exact ⟨_, _, rfl⟩
            | some rel => exact ⟨_, _, rfl⟩
  · intro g' hg' hm hf
    subst hg'
    simp only [maskSpanFromMatch, hm, hf]

/-- C9 witness: a numeric selector beyond the capture list resolves to the
full-match span, with both bounds non-null. -/
theorem maskSpanFromMatch_total_witness :
    (∃ s e, maskSpanFromMatch mC9 (some (GroupSel.num 3)) = (some s, some e)) ∧
      maskSpanFromMatch mC9 (some (GroupSel.num 3)) = (some 0, some 2) := by
  have h := maskSpanFromMatch_total mC9 (some (GroupSel.num 3))
  exact ⟨h.1, (h.2 (GroupSel.num 3) rfl (by decide) (by decide)).trans (by decide)⟩

/-- C1: for every text and pattern list, every mask span produced by the
scan satisfies `0 ≤ start < end ≤ length(text)` — proved under the
assumption that the regex engine only delivers well-formed matches (the
full match and all index tuples lie within the text), which holds of any
real `RegExpExecArray`. -/
theorem scan_spans_within_bounds (engine : Engine) (text : Str) (reg : RevealMap)
    (key : String) (now : Nat) (ps : List Pattern)
    (hwf : ∀ p ∈ ps, ∀ m ∈ matchesFor engine p text, WfMatch text m = true) :
    ∀ sp ∈ scan engine text reg key now ps, sp.start < sp.stop ∧ sp.stop ≤ text.length := by
  intro sp hsp
  unfold scan at hsp
  dsimp only at hsp
  rw [List.mem_flatMap] at hsp
  obtain ⟨p, hp, hmem⟩ := hsp
  obtain ⟨m, hm, s, e, hspan, hlt, -, heq⟩ := mem_scanPattern hmem
  subst heq
  exact ⟨hlt, maskSpan_le text m p.group s e (hwf p hp m hm) hspan⟩

/-- C1 witness: a concrete engine matching the whole two-character text. -/
theorem scan_spans_within_bounds_witness :
    (∀ p ∈ psW, ∀ m ∈ matchesFor engineW p textW, WfMatch textW m = true) ∧
      ∀ sp ∈ scan engineW textW [] "d" 0 psW,
        sp.start < sp.stop ∧ sp.stop ≤ textW.length :=
  ⟨by decide, scan_spans_within_bounds engineW textW [] "d" 0 psW (by decide)⟩

/-- C2: fault isolation: when the pattern list contains at least one
definition whose regex fails to compile and at least one valid one, both
`scan` and `redactText` skip the failing definitions and produce exactly the
result they would produce on the list with the failing definitions removed;
the compile failure is swallowed by the `try`/`catch` (both operations are
total functions here, so no error reaches the caller). -/
theorem scan_redact_skip_invalid (engine : Engine) (text : Str) (reg : RevealMap)
    (key : String) (now : Nat) (ps : List Pattern)
    (_hbad : ∃ p ∈ ps, engine p.regex = none)
    (_hgood : ∃ p ∈ ps, (engine p.regex).isSome = true) :
    scan engine text reg key now ps =
      scan engine text reg key now (ps.filter fun p => (engine p.regex).isSome) ∧
    redactText engine text ps =
      redactText engine text (ps.filter fun p => (engine p.regex).isSome) := by
  refine ⟨?_, redactText_filter engine ps text⟩
  unfold scan
  dsimp only
  exact flatMap_scan_filter engine text (cleanupExpiredReveals reg key now) key now ps

/-- C2 witness: one compiling and one non-compiling pattern. -/
theorem scan_redact_skip_invalid_witness :
    scan engineC2 textW [] "d" 0 psC2 =
      scan engineC2 textW [] "d" 0 (psC2.filter fun p => (engineC2 p.regex).isSome) ∧
    redactText engineC2 textW psC2 =
      redactText engineC2 textW (psC2.filter fun p => (engineC2 p.regex).isSome) :=
  scan_redact_skip_invalid engineC2 textW [] "d" 0 psC2
    ⟨{ name := "b", regex := "bad", group := none }, by decide, rfl⟩
    ⟨{ name := "g", regex := "ok", group := none }, by decide, rfl⟩

/-- C10: reveal-registry operations are frame-local per document: adding a
reveal, running a reveal's timeout callback, or sweeping expired entries for
one document key leaves the stored entries of every other key unchanged
(the coverage query reads but never writes, so it has no frame at all). -/
theorem reveal_ops_frame (reg : RevealMap) (k k' : String) (s e ms t0 now : Nat)
    (h : k' ≠ k) :
    mapGet (temporarilyReveal reg k s e ms t0) k' = mapGet reg k' ∧
    mapGet (cleanupExpiredReveals reg k now) k' = mapGet reg k' ∧
    mapGet (revealTimeoutCallback reg k s e now) k' = mapGet reg k' := by
  refine ⟨?_, ?_, ?_⟩
  · unfold temporarilyReveal
    exact mapGet_mapSet_ne reg k k' _ h
  · unfold cleanupExpiredReveals
    cases hg : mapGet reg k with
    | none => rfl
    | some arr =>
      dsimp only
      by_cases hl : (arr.filter fun x => decide (now < x.expires)).length ≠ arr.length
      · rw [if_pos hl]
        exact mapGet_mapSet_ne reg k k' _ h
      · rw [if_neg hl]
  · unfold revealTimeoutCallback
    cases hg : mapGet reg k with
    | none => rfl
    | some arr => exact mapGet_mapSet_ne reg k k' _ h

/-- C10 witness: two documents; operations on "a" leave "b" untouched. -/
theorem reveal_ops_frame_witness :
    mapGet (temporarilyReveal regW "a" 0 1 5000 0) "b" = mapGet regW "b" ∧
    mapGet (cleanupExpiredReveals regW "a" 100) "b" = mapGet regW "b" ∧
    mapGet (revealTimeoutCallback regW "a" 0 1 100) "b" = mapGet regW "b" :=
  reveal_ops_frame regW "a" "b" 0 1 5000 0 100 (by decide)

/-- C3: after a reveal of `[s, e)` with duration 5000ms is added at time
`t0`, a scan at any time before the expiry `t0 + 5000` contains no span
strictly overlapping `[s, e)`, and a scan at any time beyond the expiry
equals the scan over the registry as it was before the reveal was added —
every span the pattern set produces is back. -/
theorem reveal_suppresses_then_expires (engine : Engine) (text : Str) (reg : RevealMap)
    (key : String) (ps : List Pattern) (s e t0 now now2 : Nat)
    (h1 : now < t0 + 5000) (h2 : t0 + 5000 < now2) :
    (∀ sp ∈ scan engine text (temporarilyReveal reg key s e 5000 t0) key now ps,
      ¬(max sp.start s < min sp.stop e)) ∧
    scan engine text (temporarilyReveal reg key s e 5000 t0) key now2 ps =
      scan engine text reg key now2 ps := by
  have hmax : max 500 5000 = 5000 := by norm_num
  constructor
  · intro sp hsp hov
    unfold scan at hsp
    dsimp only at hsp
    rw [List.mem_flatMap] at hsp
    obtain ⟨p, hp, hmem⟩ := hsp
    obtain ⟨m, hm, s', e', hspan, hlt, hrev, heq⟩ := mem_scanPattern hmem
    subst heq
    dsimp only at hov
    rw [isTemporarilyRevealed_cleanup, isTemporarilyRevealed_add, hmax] at hrev
    simp only [Bool.or_eq_false_iff, Bool.and_eq_false_iff,
      decide_eq_false_iff_not] at hrev
    rcases hrev.2 with hc | hc
    · exact hc h1
    · rw [Nat.max_comm s' s, Nat.min_comm e' e] at hov
      exact hc hov
  · apply scan_congrReveal
    intro a b
    rw [isTemporarilyRevealed_cleanup, isTemporarilyRevealed_cleanup,
      isTemporarilyRevealed_add, hmax]
    have hd : decide (now2 < t0 + 5000) = false := decide_eq_false (by omega)
    rw [hd]
    simp

/-- C3 witness: a concrete reveal of `[1, 2)` on the text `"ab"` suppresses
the whole-text span at time 100 and has no effect at time 6000. -/
theorem reveal_suppresses_then_expires_witness :
    (∀ sp ∈ scan engineW textW (temporarilyReveal [] "d" 1 2 5000 0) "d" 100 psW,
      ¬(max sp.start 1 < min sp.stop 2)) ∧
    scan engineW textW (temporarilyReveal [] "d" 1 2 5000 0) "d" 6000 psW =
      scan engineW textW [] "d" 6000 psW :=
  reveal_suppresses_then_expires engineW textW [] "d" psW 1 2 0 100 6000
    (by omega) (by omega)

/-- C4 counterexample: two reveals for the same range `[0, 5)` of document
"d" are added at times 1000 and 3000 with duration 5000ms (expiries 6000 and
8000), the second while the first is still active; both entries coexist.
But when the first reveal's timeout callback fires at its expiry 6000 it
removes BOTH entries (its filter drops every entry with the same range,
expired or not), so a coverage query at time 6500 — strictly before the
later expiry 8000 — returns `false`, refuting the claim that the entries
expire independently and that coverage of `[s, e)` remains true until the
later of the two expiry times has passed. -/
theorem duplicate_reveal_counterexample :
    (entriesOf (temporarilyReveal (temporarilyReveal [] "d" 0 5 5000 1000)
      "d" 0 5 5000 3000) "d").length = 2 ∧
    3000 < 1000 + 5000 ∧
    isTemporarilyRevealed
      (revealTimeoutCallback
        (temporarilyReveal (temporarilyReveal [] "d" 0 5 5000 1000) "d" 0 5 5000 3000)
        "d" 0 5 6000)
      "d" 0 5 6500 = false ∧
    6500 < 8000 := by decide

/-- C4 amended: after a reveal for `[s, e)` is re-requested while an earlier
reveal for the exact same range is still active, the two entries coexist in
the registry, and the lazy coverage query alone treats them independently —
coverage holds exactly until the later of the two expiry times; however,
each reveal's timeout callback removes every entry with the same range,
expired or not, so independent expiry holds only until the earlier
reveal's timeout fires. -/
theorem duplicate_reveal_amended (reg : RevealMap) (k : String)
    (s e ms1 ms2 t1 t2 now : Nat) (hse : s < e) :
    entriesOf (temporarilyReveal (temporarilyReveal reg k s e ms1 t1) k s e ms2 t2) k =
      entriesOf reg k ++
        [{ start := s, stop := e, expires := t1 + max 500 ms1 },
         { start := s, stop := e, expires := t2 + max 500 ms2 }] ∧
    isTemporarilyRevealed
        (temporarilyReveal (temporarilyReveal [] k s e ms1 t1) k s e ms2 t2) k s e now =
      (decide (now < t1 + max 500 ms1) || decide (now < t2 + max 500 ms2)) ∧
    entriesOf (revealTimeoutCallback reg k s e now) k =
      (entriesOf reg k).filter fun x =>
        decide (now < x.expires) && !(x.start == s && x.stop == e) := by
  refine ⟨?_, ?_, entriesOf_timeoutCallback reg k s e now⟩
  · rw [entriesOf_temporarilyReveal, entriesOf_temporarilyReveal, List.append_assoc]
    rfl
  · rw [isTemporarilyRevealed_add, isTemporarilyRevealed_add]
    have h0 : isTemporarilyRevealed [] k s e now = false := rfl
    rw [h0]
    simp [Nat.max_self, Nat.min_self, hse]

/-- C4 witness: the amended statement at the concrete inputs of the
counterexample scenario. -/
theorem duplicate_reveal_amended_witness :
    entriesOf (temporarilyReveal (temporarilyReveal regW "a" 0 5 5000 1000)
        "a" 0 5 5000 3000) "a" =
      entriesOf regW "a" ++
        [{ start := 0, stop := 5, expires := 1000 + max 500 5000 },
         { start := 0, stop := 5, expires := 3000 + max 500 5000 }] ∧
    isTemporarilyRevealed
        (temporarilyReveal (temporarilyReveal [] "a" 0 5 5000 1000) "a" 0 5 5000 3000)
        "a" 0 5 6500 =
      (decide (6500 < 1000 + max 500 5000) || decide (6500 < 3000 + max 500 5000)) ∧
    entriesOf (revealTimeoutCallback regW "a" 0 5 6500) "a" =
      (entriesOf regW "a").filter fun x =>
        decide (6500 < x.expires) && !(x.start == 0 && x.stop == 5) :=
  duplicate_reveal_amended regW "a" 0 5 5000 5000 1000 3000 6500 (by omega)

/-- The registry for the C5 counterexample: one entry for "d", already
expired at time 100. -/
def regC5 : RevealMap := [("d", [{ start := 0, stop := 5, expires := 50 }])]

/-- C5 counterexample: the code's coverage query `isTemporarilyRevealed`
only reads the registry — its type is registry → Bool, faithfully modelling
the source function, which never writes `tempReveals` — so the registry
after the query is `regC5` itself and the expired entry is still stored,
refuting "after any coverage query no expired entry remains stored for that
document".  (The returned boolean is nonetheless the correct one: the
expired entry yields no coverage.) -/
theorem query_sweep_counterexample :
    isTemporarilyRevealed regC5 "d" 0 5 100 = false ∧
    ∃ r ∈ entriesOf regC5 "d", r.expires ≤ 100 := by decide

/-- C5 amended: the coverage query removes nothing; it returns true iff some
stored entry that is unexpired at `now` strictly overlaps the query range
(`max(entryStart, start) < min(entryEnd, end)`); expired entries are removed
by the separate sweep `cleanupExpiredReveals` (run before each scan), which
keeps exactly the unexpired entries of the document. -/
theorem query_overlap_amended (reg : RevealMap) (key : String) (a b now : Nat) :
    (isTemporarilyRevealed reg key a b now = true ↔
      ∃ r ∈ entriesOf reg key, now < r.expires ∧ max r.start a < min r.stop b) ∧
    entriesOf (cleanupExpiredReveals reg key now) key =
      (entriesOf reg key).filter fun r => decide (now < r.expires) := by
  refine ⟨?_, entriesOf_cleanup reg key now⟩
  rw [isTemporarilyRevealed_eq_any, List.any_eq_true]
  constructor
  · rintro ⟨r, hr, hp⟩
    simp only [Bool.and_eq_true, decide_eq_true_eq] at hp
    exact ⟨r, hr, hp⟩
  · rintro ⟨r, hr, h1', h2'⟩
    exact ⟨r, hr, by simp [h1', h2']⟩

/-- The match of a regex like `/a()bc/d` on `"abc"`: group 1 captures the
empty string at offset 1, with index metadata `[[0,3],[1,1]]`. -/
def mC6 : MatchResult :=
  { index := 0
    captures := [some ("abc".toList), some []]
    groups := none
    indices := some { nums := [some (0, 3), some (1, 1)], groups := none } }

/-- C6 counterexample: span resolution yields the zero-length span `[1, 1)`
for group 1 of `mC6`, and the redactor's `replaceGroupWith` — whose only
guard is the null check — performs a replacement for it: redacting `"abc"`
inserts the token, producing `"a«hidden»bc"`.  This refutes the claim that
every caller of span resolution discards spans with `end <= start`. -/
theorem zero_span_discard_counterexample :
    maskSpanFromMatch mC6 (some (GroupSel.num 1)) = (some 1, some 1) ∧
    replaceGroupWith ("abc".toList) [mC6] (GroupSel.num 1) ("«hidden»".toList) =
      "a«hidden»bc".toList := by decide

/-- C6 amended: the scanner discards every resolved span with
`end <= start`, so no such span is ever rendered as a mask; the redactor's
`replaceGroupWith`, however, discards only spans with a null bound, and a
zero-length resolved span `[s, s)` does cause a replacement — the token is
inserted at offset `s`. -/
theorem zero_span_discard_amended (engine : Engine) (text : Str) (reg : RevealMap)
    (key : String) (now : Nat) (p : Pattern) (t : Str) (m : MatchResult)
    (ms : List MatchResult) (g : GroupSel) (repl : Str) (last s : Nat)
    (h : maskSpanFromMatch m (some g) = (some s, some s)) :
    (∀ sp ∈ scanPattern engine text reg key now p, sp.start < sp.stop) ∧
    replaceGroupWithAux t g repl (m :: ms) last =
      (t.drop last).take (s - last) ++ repl ++ replaceGroupWithAux t g repl ms s := by
  constructor
  · intro sp hsp
    obtain ⟨m', hm', s', e', hspan, hlt, -, heq⟩ := mem_scanPattern hsp
    subst heq
    exact hlt
  · simp only [replaceGroupWithAux, h]

/-- C6 witness: the amended statement at the zero-length-span match `mC6`. -/
theorem zero_span_discard_amended_witness :
    (∀ sp ∈ scanPattern engineW textW [] "d" 0 pW, sp.start < sp.stop) ∧
    replaceGroupWithAux ("abc".toList) (GroupSel.num 1) ("«hidden»".toList) [mC6] 0 =
      (("abc".toList).drop 0).take (1 - 0) ++ "«hidden»".toList ++
        replaceGroupWithAux ("abc".toList) (GroupSel.num 1) ("«hidden»".toList) [] 1 :=
  zero_span_discard_amended engineW textW [] "d" 0 pW ("abc".toList) mC6 []
    (GroupSel.num 1) ("«hidden»".toList) 0 1 (by decide)

/-- C7 (the code bug): the pattern source `a*` compiles (it has no leading
inline-flag group, so `buildRegex` accepts it with flags `gd`), yet the
`while ((m = re.exec(text)))` loop of the scanner and of `replaceGroupWith`
never terminates on the text `"b"`: the first `exec` yields the empty match
at position 0 and leaves `lastIndex` at 0, so the loop repeats the same
zero-length match forever — the code has no zero-length-match guard.
Formally: for every fuel bound, the loop has not finished. -/
theorem exec_loop_diverges (fuel : Nat) :
    execLoopFuel starANext ("b".toList) fuel 0 = none := by
  induction fuel with
  | zero => rfl
  | succ n ih =>
    have hstep : execLoopFuel starANext ("b".toList) (n + 1) 0 =
        match execLoopFuel starANext ("b".toList) n 0 with
        | none => none
        | some ms => some
            ({ index := 0, captures := [some []], groups := none, indices := none } :: ms) := rfl
    rw [hstep, ih]

/-- The match of a regex like `/(x?)ab/` (no `d` flag) on `"ab"`: group 1
participates but captures the empty string; no index metadata. -/
def mC8 : MatchResult :=
  { index := 0, captures := [some ("ab".toList), some []], groups := none, indices := none }

/-- C8 counterexample: for `mC8` the per-group metadata is unavailable and
group 1's captured text is the empty string, which occurs in the full match
text at first index 0, so the claim predicts the span
`[0 + 0, 0 + 0 + 0) = [0, 0)`; but the code's `!gText` test treats the empty
capture like an uncaptured group and returns the full-match span `[0, 2)`. -/
theorem substring_fallback_counterexample :
    mC8.indices = none ∧
    gTextFallback mC8 (GroupSel.num 1) = some [] ∧
    jsIndexOf (m0 mC8) [] = some 0 ∧
    maskSpanFromMatch mC8 (some (GroupSel.num 1)) ≠ (some 0, some 0) ∧
    maskSpanFromMatch mC8 (some (GroupSel.num 1)) = (some 0, some 2) := by decide

/-- C8 amended: when the metadata lookup yields nothing and the group's
fallback text is NON-EMPTY, span resolution performs a literal
first-occurrence substring search within the full match text only and
returns `[matchStart + idx, matchStart + idx + length)`; a group whose
fallback text is empty resolves to the full-match span instead. -/
theorem substring_fallback_amended (m : MatchResult) (g : GroupSel) (t : Str) (rel : Nat) :
    (metaLookup m g = none → gTextFallback m g = some t → t ≠ [] →
      jsIndexOf (m0 m) t = some rel →
      maskSpanFromMatch m (some g) =
        (some (m.index + rel), some (m.index + rel + t.length))) ∧
    (metaLookup m g = none → gTextFallback m g = some [] →
      maskSpanFromMatch m (some g) =
        (some m.index, some (m.index + (m0 m).length))) := by
  constructor
  · intro hm hf ht hr
    have ht' : t.isEmpty = false := by
      cases t
      · exact absurd rfl ht
      · rfl
    simp only [maskSpanFromMatch, hm, hf, ht', Bool.false_eq_true, if_false, hr]
  · intro hm hf
    simp only [maskSpanFromMatch, hm, hf, List.isEmpty_nil, if_true]

/-- The match of a regex like `/x(y)x/` (no `d` flag) at offset 2: group 1
captures `"y"`, found at index 1 of the full match `"xyx"`. -/
def mW8 : MatchResult :=
  { index := 2, captures := [some ("xyx".toList), some ("y".toList)],
    groups := none, indices := none }

/-- C8 witness: group 1 of `mW8` resolves by substring search to `[3, 4)`;
the empty capture of `mC8` resolves to the full-match span `[0, 2)`. -/
theorem substring_fallback_amended_witness :
    maskSpanFromMatch mW8 (some (GroupSel.num 1)) = (some 3, some 4) ∧
    maskSpanFromMatch mC8 (some (GroupSel.num 1)) = (some 0, some 2) := by
  constructor
  · have h := (substring_fallback_amended mW8 (GroupSel.num 1) ("y".toList) 1).1
      (by decide) (by decide) (by decide) (by decide)
    exact h.trans (by decide)
  · have h := (substring_fallback_amended mC8 (GroupSel.num 1) [] 0).2
      (by decide) (by decide)
    exact h.trans (by decide)

end StreamerMode
